import Mathlib

/-!
Verification of the run-orchestration core of `scripts/run_fcst.py`
(ufs-srweather-app run_fcst script).

The development shallowly embeds the three pieces of logic original to the
script:

* `_walk_key_path` (nested-config-path resolution) as `walkKeyPath`;
* `link_files` (symlink publication) as `linkFiles` over an explicit
  directory state;
* the post-driver-run portion of `run_fcst` (completion-marker check,
  output-directory resolution, publication, step marker) as `runFcstPost`.

Configuration trees are modelled as association lists of string keys to
values, matching Python dict semantics for the operations the script uses
(subscript lookup, `isinstance(·, dict)` tests).  Filesystem directories are
association lists of names to entries (regular file, directory, or symlink).
-/

set_option autoImplicit false

namespace RunFcst

/-- A configuration value: either a non-mapping scalar (string payload stands
for any non-dict Python value) or a nested mapping. -/
inductive Value where
  | scalar (s : String)
  | tree (entries : List (String × Value))

/-- A configuration tree: an ordered mapping from string keys to values,
as loaded from the experiment YAML. -/
abbrev Tree := List (String × Value)

/-- Python `config[key]` on a dict: the value bound to `key`, if present. -/
def lookupKey (t : Tree) (k : String) : Option Value :=
  (t.find? (fun p => p.1 == k)).map (fun p => p.2)

/-- The diagnostic trail built by `_walk_key_path`:
`pathstr = " -> ".join(keys)`. -/
def joinTrail (keys : List String) : String :=
  String.intercalate " -> " keys

/-- How a walk of `_walk_key_path` fails.
`keyError trail` models the `KeyError` re-raised after logging
`"Bad config path: {pathstr}"`; `exitOne trail` models the `sys.exit(1)`
taken after logging `"Value at {pathstr} must be a dictionary"`. -/
inductive WalkError where
  | keyError (trail : String)
  | exitOne (trail : String)
deriving DecidableEq

/-- The loop body of `_walk_key_path`.  `keys` is the accumulator list built
so far (`keys.append(key)` in the source); the remaining key path is walked
left to right.  At each step the current key is appended to the trail, the
key is looked up (absence reproduces the `KeyError` branch), the result is
required to be a mapping (`isinstance(subconfig, dict)`, otherwise
`sys.exit(1)`), and the walk descends. -/
def walkAux : Tree → List String → List String → Except WalkError Tree
  | config, _keys, [] => .ok config
  | config, keys, key :: rest =>
    let keys' := keys ++ [key]
    let pathstr := joinTrail keys'
    match lookupKey config key with
    | none => .error (.keyError pathstr)
    | some (.scalar _) => .error (.exitOne pathstr)
    | some (.tree sub) => walkAux sub keys' rest

/-- `_walk_key_path(config, key_path)`: navigate to the sub-config at the end
of the path of given keys (the accumulator starts empty; the initial
`pathstr = "<unknown>"` of the source is dead, being overwritten before any
use). -/
def walkKeyPath (config : Tree) (keyPath : List String) : Except WalkError Tree :=
  walkAux config [] keyPath

/-- Specification-side descent: `descend t p = some sub` says that every
prefix of `p` resolves, inside `t`, to a nested tree, and that `sub` is the
tree located at the end of `p`.  Used to phrase the claims' hypotheses. -/
def descend : Tree → List String → Option Tree
  | t, [] => some t
  | t, k :: rest =>
    match lookupKey t k with
    | some (.tree sub) => descend sub rest
    | _ => none

theorem walkAux_append (pre : List String) :
    ∀ (t sub : Tree) (keys : List String), descend t pre = some sub →
      ∀ rest, walkAux t keys (pre ++ rest) = walkAux sub (keys ++ pre) rest := by
  induction pre with
  | nil =>
    intro t sub keys h rest
    simp [descend] at h
    simp [h]
  | cons k pre ih =>
    intro t sub keys h rest
    simp only [descend] at h
    cases hl : lookupKey t k with
    | none => rw [hl] at h; simp at h
    | some v =>
      cases v with
      | scalar s => rw [hl] at h; simp at h
      | tree t' =>
        rw [hl] at h
        simp at h
        have hrec := ih t' sub (keys ++ [k]) h rest
        simp only [List.cons_append, walkAux, hl]
        simpa [List.append_assoc] using hrec

/-! ### Linker: embedding of `link_files` -/

/-- One directory entry, as the script distinguishes them: a regular file, a
directory, or a symbolic link with its target path.  `Path.is_symlink()` is
true exactly for the third constructor. -/
inductive Entry where
  | file
  | dir
  | symlink (target : String)
deriving DecidableEq

/-- `True` on the two non-link entry kinds. -/
def Entry.isSymlink : Entry → Bool
  | .symlink _ => true
  | _ => false

/-- The state of the destination directory: an association of entry names to
entries.  Name order carries no meaning; directory equality is pointwise
equality of `dirLookup`. -/
abbrev DirState := List (String × Entry)

/-- The entry named `n` in the directory, if any. -/
def dirLookup (d : DirState) (n : String) : Option Entry :=
  (d.find? (fun p => p.1 == n)).map (fun p => p.2)

/-- `linkname.unlink()`: remove the entry named `n`. -/
def dirRemove (d : DirState) (n : String) : DirState :=
  d.filter (fun p => ¬ (p.1 == n))

/-- `Path(fpath).name`: the final path component — the characters after the
last `/` of the path. -/
def basename (p : String) : String :=
  String.mk ((p.data.reverse.takeWhile (fun c => c != '/')).reverse)

/-- Result of `link_files`: either the final directory state, or the
`FileExistsError` raised by `linkname.symlink_to(path)` when a non-link
entry occupies the link name — carrying the name and the directory state at
the moment the exception propagates. -/
inductive LinkOutcome where
  | ok (s : DirState)
  | fileExists (name : String) (s : DirState)
deriving DecidableEq

/-- `link_files(dest_dir, files)`: for each `fpath`, compute
`linkname = dest_dir / Path(fpath).name`; if `linkname.is_symlink()`,
`linkname.unlink()`; then `linkname.symlink_to(path)`, which raises
`FileExistsError` if the name is still occupied (a regular file or
directory) and otherwise creates the link. -/
def linkFiles (destDir : DirState) : List String → LinkOutcome
  | [] => .ok destDir
  | fpath :: rest =>
    let name := basename fpath
    let d1 :=
      match dirLookup destDir name with
      | some e => if e.isSymlink then dirRemove destDir name else destDir
      | none => destDir
    match dirLookup d1 name with
    | some _ => .fileExists name d1
    | none => linkFiles (d1 ++ [(name, Entry.symlink fpath)]) rest

/-- The directory state an outcome leaves behind. -/
def LinkOutcome.state : LinkOutcome → DirState
  | .ok s => s
  | .fileExists _ s => s

/-! ### RunController: embedding of the tail of `run_fcst` -/

/-- How a Python subscript `value[key]` fails: `KeyError` on a mapping that
lacks the key, `TypeError` when the subscripted value is not a mapping
(string subscripts on non-dict values), or — for `Path(value)` — when a
mapping is passed where a path string is required. -/
inductive PyError where
  | keyError (k : String)
  | typeError
deriving DecidableEq

/-- Python `value[key]` for a string key. -/
def pySubscript (v : Value) (k : String) : Except PyError Value :=
  match v with
  | .scalar _ => .error .typeError
  | .tree t =>
    match lookupKey t k with
    | none => .error (.keyError k)
    | some w => .ok w

/-- The output-destination resolution performed by `run_fcst`:
`expt_config["workflow"]["FIXlam"]`, two consecutive subscripts. -/
def fixLamLookup (config : Tree) : Except PyError Value :=
  match pySubscript (.tree config) "workflow" with
  | .error e => .error e
  | .ok w => pySubscript w "FIXlam"

/-- How the tail of `run_fcst` terminates.  `exitOne` is the `sys.exit(1)`
taken when the driver marker is missing; `keyErrorExit`/`typeErrorExit` are
uncaught exceptions out of `Path(expt_config["workflow"]["FIXlam"])`;
`nameErrorExit n` is an uncaught `NameError` for the undefined name `n`;
`completed` would be a normal return. -/
inductive FcstOutcome where
  | exitOne
  | keyErrorExit (k : String)
  | typeErrorExit
  | nameErrorExit (n : String)
  | completed
deriving DecidableEq

/-- The tail of `run_fcst`, from the point where the external driver's
`run()` has returned.  Inputs: the set of regular-file names present in the
run directory, the loaded experiment config, and the state of the
output-destination directory.  Output: the way the script terminates, the
final destination-directory state, and whether the orchestration-step marker
`run_fcst_task_complete.txt` was written.

Embeds, in source order:
* `if not (rundir / "runscript.fv3.done").is_file(): sys.exit(1)`;
* `fix_lam_path = Path(expt_config["workflow"]["FIXlam"])` — `KeyError` and
  `TypeError` propagate uncaught; `Path(·)` itself raises `TypeError` when
  handed a mapping rather than a path string;
* `_link_files(dest_dir=..., files=glob.glob(...))` — the module defines
  `link_files` but no `_link_files` (and never imports `glob`), so
  evaluating the call raises `NameError: name '_link_files' is not defined`
  before any argument is evaluated and before any link is created;
* `Path(task_rundir / "run_fcst_task_complete.txt").touch()` — never
  reached on this path (and `task_rundir` is itself an undefined name). -/
def runFcstPost (rundirFiles : List String) (exptConfig : Tree) (dest : DirState) :
    FcstOutcome × DirState × Bool :=
  if rundirFiles.contains "runscript.fv3.done" then
    match fixLamLookup exptConfig with
    | .error (.keyError k) => (.keyErrorExit k, dest, false)
    | .error .typeError => (.typeErrorExit, dest, false)
    | .ok (.tree _) => (.typeErrorExit, dest, false)
    | .ok (.scalar _) => (.nameErrorExit "_link_files", dest, false)
  else
    (.exitOne, dest, false)

/-! ### Store-passing embedding of `_walk_key_path`, for the frame property

Python configuration mappings are heap objects accessed by reference, and a
callee could in principle mutate them.  To state that `_walk_key_path` leaves
its input untouched, the walk is re-embedded over an explicit store: values
are scalars or references to mappings living in a heap, and every statement
of the function threads the heap through.  The result mirrors `WalkError`,
with an extra case for a dangling reference (impossible for heaps produced
by the YAML loader, but the type does not rule it out). -/

/-- A Python value at heap level: a scalar, or a reference to a mapping. -/
inductive PVal where
  | scalar (s : String)
  | ref (addr : Nat)
deriving DecidableEq

/-- A mapping object: ordered association of keys to heap-level values. -/
abbrev PDict := List (String × PVal)

/-- The store: mapping objects indexed by address. -/
abbrev Heap := List PDict

/-- Dereference an address. -/
def heapGet (h : Heap) (a : Nat) : Option PDict :=
  h.get? a

/-- `config[key]` at heap level. -/
def pdictLookup (d : PDict) (k : String) : Option PVal :=
  (d.find? (fun p => p.1 == k)).map (fun p => p.2)

/-- Result of the store-passing walk. -/
inductive HeapWalkRes where
  | ok (addr : Nat)
  | keyError (trail : String)
  | exitOne (trail : String)
  | dangling
deriving DecidableEq

/-- The loop of `_walk_key_path` in store-passing form: each iteration reads
the current mapping from the heap, looks the key up, and either fails (with
the same diagnostics as `walkAux`) or rebinds the local `config` reference to
the sub-mapping.  The heap is returned alongside the result so that any
mutation the source performed would be visible in the final state. -/
def walkAuxH (h : Heap) : List String → Nat → List String → HeapWalkRes × Heap
  | _keys, addr, [] => (.ok addr, h)
  | keys, addr, key :: rest =>
    let keys' := keys ++ [key]
    let pathstr := joinTrail keys'
    match heapGet h addr with
    | none => (.dangling, h)
    | some d =>
      match pdictLookup d key with
      | none => (.keyError pathstr, h)
      | some (.scalar _) => (.exitOne pathstr, h)
      | some (.ref a') => walkAuxH h keys' a' rest

/-- `_walk_key_path(config, key_path)` in store-passing form, starting from
the reference `addr` to the root mapping. -/
def walkKeyPathH (h : Heap) (addr : Nat) (keyPath : List String) : HeapWalkRes × Heap :=
  walkAuxH h [] addr keyPath

theorem walkAuxH_heap (keyPath : List String) :
    ∀ (h : Heap) (keys : List String) (addr : Nat),
      (walkAuxH h keys addr keyPath).2 = h := by
  induction keyPath with
  | nil => intro h keys addr; rfl
  | cons key rest ih =>
    intro h keys addr
    simp only [walkAuxH]
    cases heapGet h addr with
    | none => rfl
    | some d =>
      cases hpd : pdictLookup d key with
      | none => simp [hpd]
      | some v =>
        cases v with
        | scalar s => simp [hpd]
        | ref a' => simpa [hpd] using ih h (keys ++ [key]) a'

/-! ### Association-lookup lemmas for directory states -/

theorem dirLookup_nil (n : String) : dirLookup [] n = none := rfl

theorem dirLookup_cons (p : String × Entry) (d : DirState) (n : String) :
    dirLookup (p :: d) n = if p.1 = n then some p.2 else dirLookup d n := by
  by_cases hp : p.1 = n
  · simp [dirLookup, List.find?_cons_of_pos, hp]
  · have hb : (p.1 == n) = false := by simpa using hp
    simp [dirLookup, List.find?_cons_of_neg, hb, hp]

theorem dirLookup_append (d l : DirState) (n : String) :
    dirLookup (d ++ l) n =
      match dirLookup d n with
      | some e => some e
      | none => dirLookup l n := by
  induction d with
  | nil => simp [dirLookup_nil]
  | cons p d ih =>
    by_cases hp : p.1 = n
    · simp [dirLookup_cons, hp]
    · simpa [dirLookup_cons, hp] using ih

theorem dirLookup_single (m : String) (e : Entry) (n : String) :
    dirLookup [(m, e)] n = if m = n then some e else none := by
  simp [dirLookup_cons, dirLookup_nil]

theorem dirLookup_remove (d : DirState) (m n : String) :
    dirLookup (dirRemove d m) n = if m = n then none else dirLookup d n := by
  induction d with
  | nil => simp [dirRemove, dirLookup_nil]
  | cons p d ih =>
    by_cases hp : p.1 = m
    · have h1 : dirRemove (p :: d) m = dirRemove d m := by
        simp [dirRemove, List.filter_cons, hp]
      by_cases hmn : m = n
      · rw [h1, ih]; simp [hmn]
      · have hpn : ¬ p.1 = n := by rw [hp]; exact hmn
        rw [h1, ih]
        simp [hmn, dirLookup_cons, hpn]
    · have h1 : dirRemove (p :: d) m = p :: dirRemove d m := by
        simp [dirRemove, List.filter_cons, hp]
      by_cases hpn : p.1 = n
      · have hmn : ¬ m = n := fun hc => hp (by rw [hc]; exact hpn)
        simp [h1, dirLookup_cons, hpn, hmn]
      · simp [h1, dirLookup_cons, hpn, ih]

/-- `True` exactly on the `FileExistsError` outcome. -/
def LinkOutcome.isError : LinkOutcome → Bool
  | .ok _ => false
  | .fileExists _ _ => true

theorem linkFiles_cons_ok (d : DirState) (fpath : String) (rest : List String)
    (hfree : ∀ e, dirLookup d (basename fpath) = some e → e.isSymlink = true) :
    ∃ d', linkFiles d (fpath :: rest) = linkFiles d' rest
      ∧ dirLookup d' (basename fpath) = some (.symlink fpath)
      ∧ (∀ n, basename fpath ≠ n → dirLookup d' n = dirLookup d n) := by
  cases hl : dirLookup d (basename fpath) with
  | none =>
    refine ⟨d ++ [(basename fpath, .symlink fpath)], ?_, ?_, ?_⟩
    · simp [linkFiles, hl]
    · simp [dirLookup_append, hl, dirLookup_single]
    · intro n hn
      rw [dirLookup_append]
      cases hdn : dirLookup d n with
      | none => simp [dirLookup_single, hn]
      | some x => simp
  | some e =>
    have hsym := hfree e hl
    cases e with
    | file => simp [Entry.isSymlink] at hsym
    | dir => simp [Entry.isSymlink] at hsym
    | symlink t =>
      have hrm : dirLookup (dirRemove d (basename fpath)) (basename fpath) = none := by
        simp [dirLookup_remove]
      refine ⟨dirRemove d (basename fpath) ++ [(basename fpath, .symlink fpath)], ?_, ?_, ?_⟩
      · simp [linkFiles, hl, Entry.isSymlink, hrm]
      · simp [dirLookup_append, hrm, dirLookup_single]
      · intro n hn
        rw [dirLookup_append, dirLookup_remove]
        simp only [hn, if_false]
        cases hdn : dirLookup d n with
        | none => simp [dirLookup_single, hn]
        | some x => simp

theorem linkFiles_char :
    ∀ (files : List String) (d : DirState),
      (files.map basename).Nodup →
      (∀ f ∈ files, ∀ e, dirLookup d (basename f) = some e → e.isSymlink = true) →
      ∃ s, linkFiles d files = .ok s
        ∧ (∀ f ∈ files, dirLookup s (basename f) = some (.symlink f))
        ∧ (∀ n, (∀ f ∈ files, basename f ≠ n) → dirLookup s n = dirLookup d n) := by
  intro files
  induction files with
  | nil =>
    intro d _ _
    exact ⟨d, rfl, by simp, fun n _ => rfl⟩
  | cons fpath rest ih =>
    intro d hnd hfree
    obtain ⟨d', heq, hself, hframe⟩ :=
      linkFiles_cons_ok d fpath rest (hfree fpath (List.mem_cons_self _ _))
    have hnd2 := hnd
    rw [List.map_cons, List.nodup_cons] at hnd2
    have hnotin : basename fpath ∉ rest.map basename := hnd2.1
    have hnd' : (rest.map basename).Nodup := hnd2.2
    have hne_rest : ∀ f ∈ rest, basename fpath ≠ basename f := by
      intro f hf hc
      exact hnotin (hc ▸ List.mem_map_of_mem basename hf)
    have hfree' : ∀ f ∈ rest, ∀ e, dirLookup d' (basename f) = some e → e.isSymlink = true := by
      intro f hf e he
      rw [hframe _ (hne_rest f hf)] at he
      exact hfree f (List.mem_cons_of_mem _ hf) e he
    obtain ⟨s, hs, hlinks, hfr⟩ := ih d' hnd' hfree'
    refine ⟨s, by rw [heq, hs], ?_, ?_⟩
    · intro f hf
      rcases List.mem_cons.1 hf with hfe | hfr2
      · subst hfe
        have h1 : ∀ g ∈ rest, basename g ≠ basename f := fun g hg hc =>
          hne_rest g hg hc.symm
        rw [hfr (basename f) h1]
        exact hself
      · exact hlinks f hfr2
    · intro n hn
      have h1 : ∀ f ∈ rest, basename f ≠ n := fun f hf => hn f (List.mem_cons_of_mem _ hf)
      rw [hfr n h1, hframe n (hn fpath (List.mem_cons_self _ _))]

theorem linkFiles_state_preserves_nonlink :
    ∀ (files : List String) (d : DirState) (n : String) (e : Entry),
      e.isSymlink = false → dirLookup d n = some e →
      dirLookup (linkFiles d files).state n = some e := by
  intro files
  induction files with
  | nil =>
    intro d n e _ he
    simpa [linkFiles, LinkOutcome.state] using he
  | cons fpath rest ih =>
    intro d n e hns he
    by_cases hn : basename fpath = n
    · subst hn
      have herr : linkFiles d (fpath :: rest) = .fileExists (basename fpath) d := by
        simp [linkFiles, he, hns]
      rw [herr]
      exact he
    · cases hl : dirLookup d (basename fpath) with
      | none =>
        have heq : linkFiles d (fpath :: rest)
            = linkFiles (d ++ [(basename fpath, .symlink fpath)]) rest := by
          simp [linkFiles, hl]
        rw [heq]
        refine ih _ n e hns ?_
        simp [dirLookup_append, he]
      | some e2 =>
        cases he2 : e2.isSymlink with
        | true =>
          have hrm : dirLookup (dirRemove d (basename fpath)) (basename fpath) = none := by
            simp [dirLookup_remove]
          have heq : linkFiles d (fpath :: rest)
              = linkFiles (dirRemove d (basename fpath)
                  ++ [(basename fpath, .symlink fpath)]) rest := by
            simp [linkFiles, hl, he2, hrm]
          rw [heq]
          refine ih _ n e hns ?_
          have h1 : dirLookup (dirRemove d (basename fpath)) n = some e := by
            rw [dirLookup_remove]
            simp [hn, he]
          simp [dirLookup_append, h1]
        | false =>
          have herr : linkFiles d (fpath :: rest) = .fileExists (basename fpath) d := by
            simp [linkFiles, hl, he2]
          rw [herr]
          exact he

theorem linkFiles_fails_on_nonlink :
    ∀ (files : List String) (d : DirState),
      (∃ f ∈ files, ∃ e, dirLookup d (basename f) = some e ∧ e.isSymlink = false) →
      (linkFiles d files).isError = true := by
  intro files
  induction files with
  | nil =>
    intro d h
    simp at h
  | cons fpath rest ih =>
    intro d h
    obtain ⟨f, hf, e, he, hns⟩ := h
    cases hl : dirLookup d (basename fpath) with
    | some e0 =>
      cases h0 : e0.isSymlink with
      | false =>
        have herr : linkFiles d (fpath :: rest) = .fileExists (basename fpath) d := by
          simp [linkFiles, hl, h0]
        rw [herr]
        rfl
      | true =>
        have hbne : basename f ≠ basename fpath := by
          intro hc
          rw [hc, hl] at he
          cases he
          rw [h0] at hns
          cases hns
        have hfr : f ∈ rest := by
          rcases List.mem_cons.1 hf with hfe | hfr
          · exact absurd (hfe ▸ rfl) hbne
          · exact hfr
        have hrm : dirLookup (dirRemove d (basename fpath)) (basename fpath) = none := by
          simp [dirLookup_remove]
        have heq : linkFiles d (fpath :: rest)
            = linkFiles (dirRemove d (basename fpath)
                ++ [(basename fpath, .symlink fpath)]) rest := by
          simp [linkFiles, hl, h0, hrm]
        rw [heq]
        refine ih _ ⟨f, hfr, e, ?_, hns⟩
        have hne2 : ¬ basename fpath = basename f := fun hc => hbne hc.symm
        have h1 : dirLookup (dirRemove d (basename fpath)) (basename f) = some e := by
          rw [dirLookup_remove]
          simp [hne2, he]
        simp [dirLookup_append, h1]
    | none =>
      have hbne : basename f ≠ basename fpath := by
        intro hc
        rw [hc, hl] at he
        cases he
      have hfr : f ∈ rest := by
        rcases List.mem_cons.1 hf with hfe | hfr
        · exact absurd (hfe ▸ rfl) hbne
        · exact hfr
      have heq : linkFiles d (fpath :: rest)
          = linkFiles (d ++ [(basename fpath, .symlink fpath)]) rest := by
        simp [linkFiles, hl]
      rw [heq]
      refine ih _ ⟨f, hfr, e, ?_, hns⟩
      simp [dirLookup_append, he]

/-! ### Concrete configurations used by the witnesses (spec scenario A) -/

/-- Scenario A's configuration: `{"workflow": {"FIXlam": "/out"}}`. -/
def cfgA : Tree := [("workflow", Value.tree [("FIXlam", Value.scalar "/out")])]

/-- The `workflow` block of scenario A's configuration. -/
def cfgAWorkflow : Tree := [("FIXlam", Value.scalar "/out")]

/-! ### Claims about PathResolver (`_walk_key_path`) -/

/-- C1: for every configuration tree and non-empty key path each of whose
prefixes resolves to a nested tree, `_walk_key_path` returns exactly the
sub-tree at the end of the path, without error. -/
theorem walk_key_path_resolves_full_path (config : Tree) (keyPath : List String) (sub : Tree)
    (hne : keyPath ≠ []) (hres : descend config keyPath = some sub) :
    walkKeyPath config keyPath = .ok sub := by
  have h := walkAux_append keyPath config sub [] hres []
  simpa [walkKeyPath, walkAux] using h

/-- Witness for C1, spec scenario A: config `{"workflow": {"FIXlam": "/out"}}`
with key path `["workflow"]` resolves to `{"FIXlam": "/out"}`. -/
theorem walk_key_path_resolves_full_path_witness :
    walkKeyPath cfgA ["workflow"] = .ok cfgAWorkflow :=
  walk_key_path_resolves_full_path cfgA ["workflow"] cfgAWorkflow
    (by simp) (by rfl)

/-- C2: for every key path with a key absent at its position (every earlier
step resolving to a nested tree), `_walk_key_path` fails with a `KeyError`
whose diagnostic trail is the path prefix up to and including the first
absent key, joined by `" -> "`. -/
theorem walk_key_path_missing_key_trail (config sub : Tree) (pre suf : List String)
    (k : String) (hres : descend config pre = some sub) (habs : lookupKey sub k = none) :
    walkKeyPath config (pre ++ k :: suf) = .error (.keyError (joinTrail (pre ++ [k]))) := by
  have h := walkAux_append pre config sub [] hres (k :: suf)
  rw [walkKeyPath, h]
  simp [walkAux, habs]

/-- Witness for C2, spec scenario D: key path `["workflow", "missing"]`
against scenario A's config fails with trail `"workflow -> missing"`. -/
theorem walk_key_path_missing_key_trail_witness :
    walkKeyPath cfgA ["workflow", "missing"] = .error (.keyError "workflow -> missing") := by
  have h := walk_key_path_missing_key_trail cfgA cfgAWorkflow ["workflow"] [] "missing"
    (by rfl) (by rfl)
  simpa [joinTrail] using h

/-- C3 counterexample: `_walk_key_path` does not reject a key path of length
zero; on the concrete tree `{"a": "x"}` and the empty path it succeeds and
returns the input tree itself. -/
theorem walk_key_path_empty_path_counterexample :
    walkKeyPath [("a", Value.scalar "x")] [] = .ok [("a", Value.scalar "x")] := rfl

/-- C3 amended: for every configuration tree, calling `_walk_key_path` with a
key path of length zero succeeds and returns the input tree unchanged — no
validation rejects the empty path before walking. -/
theorem walk_key_path_empty_path_returns_input (config : Tree) :
    walkKeyPath config [] = .ok config := rfl

/-- C4: for every key path in which some step yields a value that is present
but not a nested tree, `_walk_key_path` fails (the `sys.exit(1)` branch) and
the failure identifies exactly that position: the trail of keys up to and
including the offending key. -/
theorem walk_key_path_scalar_intermediate (config sub : Tree) (pre suf : List String)
    (k s : String) (hres : descend config pre = some sub)
    (hsc : lookupKey sub k = some (.scalar s)) :
    walkKeyPath config (pre ++ k :: suf) = .error (.exitOne (joinTrail (pre ++ [k]))) := by
  have h := walkAux_append pre config sub [] hres (k :: suf)
  rw [walkKeyPath, h]
  simp [walkAux, hsc]

/-- Witness for C4: in scenario A's config, descending through
`["workflow", "FIXlam"]` hits the scalar `"/out"` at `FIXlam` and fails with
the trail `"workflow -> FIXlam"`. -/
theorem walk_key_path_scalar_intermediate_witness :
    walkKeyPath cfgA ["workflow", "FIXlam"] = .error (.exitOne "workflow -> FIXlam") := by
  have h := walk_key_path_scalar_intermediate cfgA cfgAWorkflow ["workflow"] [] "FIXlam" "/out"
    (by rfl) (by rfl)
  simpa [joinTrail] using h

/-! ### Claims about Linker (`link_files`) -/

/-- C5 counterexample: on a destination directory whose entry `data.nc` is a
regular file (not a symlink), publishing the single source `/run/data.nc`
raises `FileExistsError` instead of leaving one link per source, so the
claim's universal statement over every existing destination directory fails
at this input. -/
theorem link_files_idempotent_counterexample :
    linkFiles [("data.nc", Entry.file)] ["/run/data.nc"]
      = .fileExists "data.nc" [("data.nc", Entry.file)] := rfl

/-- C5 amended: `link_files` is idempotent for every existing destination
directory *in which no source's base name is occupied by a non-symlink
entry* and every source list with pairwise distinct base names: the first
call succeeds leaving exactly one symlink per source, named by the source's
base name and pointing at that source, and a second call succeeds and leaves
the destination directory in the same state (pointwise equal as a
name-to-entry map). -/
theorem link_files_idempotent (d : DirState) (files : List String)
    (hnd : (files.map basename).Nodup)
    (hfree : ∀ f ∈ files, ∀ e, dirLookup d (basename f) = some e → e.isSymlink = true) :
    ∃ s1 s2, linkFiles d files = .ok s1 ∧ linkFiles s1 files = .ok s2
      ∧ (∀ n, dirLookup s2 n = dirLookup s1 n)
      ∧ (∀ f ∈ files, dirLookup s1 (basename f) = some (.symlink f)) := by
  obtain ⟨s1, h1, hlinks1, _⟩ := linkFiles_char files d hnd hfree
  have hfree1 : ∀ f ∈ files, ∀ e, dirLookup s1 (basename f) = some e → e.isSymlink = true := by
    intro f hf e he
    rw [hlinks1 f hf] at he
    cases he
    rfl
  obtain ⟨s2, h2, hlinks2, hfr2⟩ := linkFiles_char files s1 hnd hfree1
  refine ⟨s1, s2, h1, h2, ?_, hlinks1⟩
  intro n
  by_cases hn : ∃ f ∈ files, basename f = n
  · obtain ⟨f, hf, hbn⟩ := hn
    rw [← hbn, hlinks2 f hf, hlinks1 f hf]
  · push_neg at hn
    exact hfr2 n hn

/-- Witness for C5 (amended): publishing `/run/a.nc` and `/run/b.nc` into an
empty destination directory twice succeeds, the second run reproducing the
first run's state with one symlink per source. -/
theorem link_files_idempotent_witness :
    ∃ s1 s2, linkFiles [] ["/run/a.nc", "/run/b.nc"] = .ok s1
      ∧ linkFiles s1 ["/run/a.nc", "/run/b.nc"] = .ok s2
      ∧ (∀ n, dirLookup s2 n = dirLookup s1 n)
      ∧ (∀ f ∈ ["/run/a.nc", "/run/b.nc"],
          dirLookup s1 (basename f) = some (.symlink f)) :=
  link_files_idempotent [] ["/run/a.nc", "/run/b.nc"] (by decide)
    (by intro f hf e he; simp [dirLookup] at he)

/-- C9: when the destination path for some source already holds a regular
file or a directory (not a symlink), `link_files` neither removes nor
overwrites it — the entry is still present, unchanged, in the state the call
leaves behind — and the call fails with `FileExistsError` rather than
silently replacing the entry. -/
theorem link_files_never_overwrites_nonlink (d : DirState) (files : List String)
    (f : String) (e : Entry) (hf : f ∈ files)
    (he : dirLookup d (basename f) = some e) (hns : e.isSymlink = false) :
    dirLookup (linkFiles d files).state (basename f) = some e
    ∧ (linkFiles d files).isError = true :=
  ⟨linkFiles_state_preserves_nonlink files d (basename f) e hns he,
   linkFiles_fails_on_nonlink files d ⟨f, hf, e, he, hns⟩⟩

/-- Witness for C9: a regular file `data.nc` in the destination directory
survives a `link_files` call for source `/x/data.nc`, and the call errors. -/
theorem link_files_never_overwrites_nonlink_witness :
    dirLookup (linkFiles [("data.nc", Entry.file)] ["/x/data.nc"]).state "data.nc"
        = some Entry.file
    ∧ (linkFiles [("data.nc", Entry.file)] ["/x/data.nc"]).isError = true :=
  link_files_never_overwrites_nonlink [("data.nc", Entry.file)] ["/x/data.nc"]
    "/x/data.nc" Entry.file (by simp) (by rfl) rfl

/-! ### Claims about RunController (`run_fcst`) -/

/-- C6: whenever the driver's completion marker `runscript.fv3.done` is
absent from the run directory after `run()` returns, the tail of `run_fcst`
takes the `sys.exit(1)` branch: the process exits non-zero, the destination
directory is left untouched (no output links are created), and the
orchestration-step completion marker is not written — the publication and
completion stages are never reached. -/
theorem run_fcst_marker_absent_no_publish (rundirFiles : List String) (config : Tree)
    (dest : DirState) (h : "runscript.fv3.done" ∉ rundirFiles) :
    runFcstPost rundirFiles config dest = (.exitOne, dest, false) := by
  have hc : rundirFiles.contains "runscript.fv3.done" = false := by
    simpa using h
  simp only [runFcstPost, hc]
  rfl

/-- Witness for C6, spec scenario C: a run directory holding only `data.nc`
(no completion marker) makes the orchestration exit non-zero with no links
and no step marker. -/
theorem run_fcst_marker_absent_no_publish_witness :
    runFcstPost ["data.nc"] cfgA [] = (.exitOne, [], false) :=
  run_fcst_marker_absent_no_publish ["data.nc"] cfgA [] (by simp)

/-- C7 counterexample: on the loaded configuration
`{"workflow": {"FIXlam": "/out"}}` (the very shape §6 of the spec requires),
`run_fcst`'s destination resolution `expt_config["workflow"]["FIXlam"]`
succeeds with the scalar `"/out"`, while
`_walk_key_path(config, ["workflow", "FIXlam"])` fails via `sys.exit(1)`
because the value at the path is not a mapping — so the two do not behave
identically. -/
theorem run_fcst_fixlam_counterexample :
    fixLamLookup cfgA = .ok (Value.scalar "/out")
    ∧ walkKeyPath cfgA ["workflow", "FIXlam"] = .error (.exitOne "workflow -> FIXlam") :=
  ⟨rfl, rfl⟩

/-- C7 amended: `run_fcst` resolves the output destination by direct nested
subscripting `expt_config["workflow"]["FIXlam"]`, not by calling
`_walk_key_path` (which the module never invokes); the direct lookup refines
the resolver one way only — whenever
`_walk_key_path(config, ["workflow", "FIXlam"])` succeeds with a sub-tree,
the direct subscripting succeeds with that same sub-tree, but the direct
form also succeeds on scalar leaf values where the resolver exits. -/
theorem run_fcst_fixlam_direct_subscript (config : Tree) (sub : Tree)
    (h : walkKeyPath config ["workflow", "FIXlam"] = .ok sub) :
    fixLamLookup config = .ok (.tree sub) := by
  rw [walkKeyPath] at h
  cases h1 : lookupKey config "workflow" with
  | none => simp [walkAux, h1] at h
  | some v =>
    cases v with
    | scalar s => simp [walkAux, h1] at h
    | tree w =>
      cases h2 : lookupKey w "FIXlam" with
      | none => simp [walkAux, h1, h2] at h
      | some v2 =>
        cases v2 with
        | scalar s2 => simp [walkAux, h1, h2] at h
        | tree t2 =>
          have hsub : t2 = sub := by simpa [walkAux, h1, h2] using h
          simp [fixLamLookup, pySubscript, h1, h2, hsub]

/-- A configuration on which the resolver's walk of
`["workflow", "FIXlam"]` fully succeeds (the leaf is itself a mapping). -/
def cfgNested : Tree :=
  [("workflow", Value.tree [("FIXlam", Value.tree [("n", Value.scalar "1")])])]

/-- Witness for C7 (amended): on `cfgNested` the resolver succeeds with the
leaf block and the direct subscripting returns the same block. -/
theorem run_fcst_fixlam_direct_subscript_witness :
    fixLamLookup cfgNested = .ok (Value.tree [("n", Value.scalar "1")]) :=
  run_fcst_fixlam_direct_subscript cfgNested [("n", Value.scalar "1")] (by rfl)

/-- C8: spec scenario B evaluated on the code as written — run directory
containing `runscript.fv3.done` and `data.nc`, configuration mapping
`workflow -> FIXlam` to `/out`.  The marker check passes and the destination
resolution succeeds, but the publication call names `_link_files`, which the
module never defines (it defines `link_files`; it also never imports `glob`
and never binds `task_rundir`), so the script aborts with an uncaught
`NameError`: no symlink is created in `/out` and
`run_fcst_task_complete.txt` is never written, contradicting the claimed
successful completion. -/
theorem run_fcst_scenario_b_name_error :
    runFcstPost ["runscript.fv3.done", "data.nc"] cfgA []
      = (.nameErrorExit "_link_files", [], false) := rfl

/-- C10: `_walk_key_path` never mutates the configuration it is given: in
the store-passing embedding, the heap of mapping objects after the walk —
whether it succeeds or fails — is exactly the input heap; the loop only
rebinds its local reference. -/
theorem walk_key_path_preserves_heap (h : Heap) (addr : Nat) (keyPath : List String) :
    (walkKeyPathH h addr keyPath).2 = h :=
  walkAuxH_heap keyPath h [] addr

end RunFcst
